import Mathlib

/-!
Verification development for the `job-bot` repository (`src/job_agent_multi.py`).

The Python source is shallowly embedded: JSON values are modelled by an
inductive `Json` type, Python-level failures (AttributeError / TypeError /
KeyError / IndexError raised by dynamic field access) by `Except PyErr`, and
Python strings by `List Char` (one element per code point, matching Python's
`str` indexing and slicing).  External library calls that the source makes
(`hashlib.sha1`, `urllib.parse.urlparse`, `re.sub`, `str.strip`, `datetime`)
are modelled by executable Lean functions defined below; everything else is a
direct translation of the repository's code.
-/

/-- Python strings, one entry per code point. -/
abbrev Str := List Char

/-- The Python exceptions that the embedded fragments can raise. -/
inductive PyErr where
  | attributeError
  | typeError
  | keyError
  | indexError
deriving DecidableEq, Repr

/-- JSON values as Python's `json` module produces them (numbers restricted to
integers, which is all the embedded code paths construct or consume). -/
inductive Json where
  | null
  | bool (b : Bool)
  | num (n : Int)
  | str (s : Str)
  | arr (xs : List Json)
  | obj (kvs : List (Str × Json))

instance {ε α : Type} [DecidableEq ε] [DecidableEq α] : DecidableEq (Except ε α) := fun a b =>
  match a, b with
  | .error e, .error f =>
    match decEq e f with
    | .isTrue h => .isTrue (by rw [h])
    | .isFalse h => .isFalse (fun hh => h (by cases hh; rfl))
  | .ok x, .ok y =>
    match decEq x y with
    | .isTrue h => .isTrue (by rw [h])
    | .isFalse h => .isFalse (fun hh => h (by cases hh; rfl))
  | .error _, .ok _ => .isFalse (fun hh => Except.noConfusion hh)
  | .ok _, .error _ => .isFalse (fun hh => Except.noConfusion hh)

/-- Python truthiness of a JSON value (`bool(v)`). -/
def truthy : Json → Bool
  | .null => false
  | .bool b => b
  | .num n => n != 0
  | .str s => !s.isEmpty
  | .arr xs => !xs.isEmpty
  | .obj kvs => !kvs.isEmpty

/-- Python `a or b` on JSON values: the first operand if truthy, else the second. -/
def pyOr (a b : Json) : Json := if truthy a then a else b

/-- Python `a or b` on two strings (`name or slug`). -/
def pyOrS (a b : Str) : Str := if a.isEmpty then b else a

/-- Lookup in the key/value list of a JSON object (Python `dict` lookup; the
parsed dictionaries have no duplicate keys). -/
def lookupKv : List (Str × Json) → Str → Option Json
  | [], _ => none
  | (k, v) :: rest, key => if k = key then some v else lookupKv rest key

/-- Python `j.get(key, default)`: dictionary lookup with a default; raises
`AttributeError` when the receiver is not a dict. -/
def pyGet (j : Json) (key : Str) (default : Json) : Except PyErr Json :=
  match j with
  | .obj kvs => .ok ((lookupKv kvs key).getD default)
  | _ => .error .attributeError

/-- Python iteration (`for x in j`): lists yield their elements, dicts their
keys, strings their one-character substrings; other values raise `TypeError`. -/
def pyIter : Json → Except PyErr (List Json)
  | .arr xs => .ok xs
  | .obj kvs => .ok (kvs.map (fun kv => .str kv.1))
  | .str s => .ok (s.map (fun c => .str [c]))
  | _ => .error .typeError

/-- Requires a string value (Python `.lower()` on a non-`str` raises
`AttributeError`). -/
def asStr : Json → Except PyErr Str
  | .str s => .ok s
  | _ => .error .attributeError

/-- Requires a number (Python arithmetic such as `x / 1000` on a non-number
raises `TypeError`; `bool` counts as a number in Python). -/
def asNum : Json → Except PyErr Int
  | .num n => .ok n
  | .bool b => .ok (if b then 1 else 0)
  | _ => .error .typeError

/-- Python `(v or "")` fed to `re.sub`, which requires a string: a falsy value
becomes `""`; a truthy non-string raises `TypeError`. -/
def strOrEmpty (v : Json) : Except PyErr Str :=
  if truthy v then asStr v else .ok []

/-- Python `v[:280]`: slicing works on strings and lists and raises `TypeError`
otherwise (a falsy `v` was already replaced by `""` by the caller's `or ""`). -/
def pySlice280 (v : Json) : Except PyErr Json :=
  match v with
  | .str s => .ok (.str (s.take 280))
  | .arr xs => .ok (.arr (xs.take 280))
  | _ => .error .typeError

/-- Python `v[0]`: indexing on lists and strings; a dict indexes by key (here
raising `KeyError` since `0` is not a string key), other values raise. -/
def pyIndex0 : Json → Except PyErr Json
  | .arr (x :: _) => .ok x
  | .arr [] => .error .indexError
  | .str (c :: _) => .ok (.str [c])
  | .str [] => .error .indexError
  | .obj _ => .error .keyError
  | _ => .error .typeError

/-- Python `.lower()` on a string (ASCII case mapping, which is what the
embedded comparisons exercise). -/
def lowerStr (s : Str) : Str := s.map Char.toLower

/-- The whitespace characters stripped by Python's `str.strip()`. -/
def isPySpace (c : Char) : Bool :=
  c = ' ' || c = '\t' || c = '\n' || c = '\x0d' || c = '\x0b' || c = '\x0c'

/-- Python `str.strip()`: remove leading and trailing whitespace. -/
def pyStrip (l : Str) : Str :=
  ((l.dropWhile isPySpace).reverse.dropWhile isPySpace).reverse

/-- Scan for the first `>` in the input, returning the remainder after it. -/
def findGt : Str → Option Str
  | [] => none
  | c :: cs => if c = '>' then some cs else findGt cs

/-- Given the characters following a `<`, decide whether the regex `<[^>]+>`
matches here: there must be at least one non-`>` character and then a `>`;
returns the remainder after the closing `>`. -/
def findTagEnd : Str → Option Str
  | [] => none
  | c :: cs => if c = '>' then none else findGt cs

theorem findGt_length : ∀ {l r : Str}, findGt l = some r → r.length < l.length := by
  intro l
  induction l with
  | nil => intro r h; simp [findGt] at h
  | cons c cs ih =>
    intro r h
    simp only [findGt] at h
    split at h
    · cases h; simp
    · exact Nat.lt_trans (ih h) (by simp)

theorem findTagEnd_length {l r : Str} (h : findTagEnd l = some r) : r.length < l.length := by
  cases l with
  | nil => simp [findTagEnd] at h
  | cons c cs =>
    simp only [findTagEnd] at h
    split at h
    · cases h
    · exact Nat.lt_trans (findGt_length h) (by simp)

/-- The substitution `re.sub(r"<[^>]+>", " ", t)`: replace each leftmost,
non-overlapping match of `<[^>]+>` by a single space. -/
def stripTags : Str → Str
  | [] => []
  | c :: cs =>
    if c = '<' then
      match h : findTagEnd cs with
      | some rest => ' ' :: stripTags rest
      | none => c :: stripTags cs
    else c :: stripTags cs
termination_by l => l.length
decreasing_by
  · exact Nat.lt_succ_of_lt (findTagEnd_length h)
  · simp
  · simp

/-- The source's `strip_html`: `re.sub(r"<[^>]+>", " ", t or "").strip()`
(the `or ""` coercion is applied by `strOrEmpty` at the call sites). -/
def strip_html (l : Str) : Str := pyStrip (stripTags l)

/-- Decimal digits of a natural number. -/
def natToStr (n : Nat) : Str :=
  if h : n < 10 then [Char.ofNat (48 + n)]
  else natToStr (n / 10) ++ [Char.ofNat (48 + n % 10)]
termination_by n
decreasing_by
  exact Nat.div_lt_self (by omega) (by omega)

/-- Python `str()` of an integer. -/
def intToStr (i : Int) : Str :=
  if i < 0 then '-' :: natToStr i.natAbs else natToStr i.toNat

mutual

/-- Python `repr()` of a JSON value (quote-escaping inside strings is not
modelled; no claim depends on it). -/
def pyRepr : Json → Str
  | .null => "None".toList
  | .bool true => "True".toList
  | .bool false => "False".toList
  | .num n => intToStr n
  | .str s => Char.ofNat 39 :: s ++ [Char.ofNat 39]
  | .arr xs => '[' :: joinCommas (pyReprList xs) ++ [']']
  | .obj kvs => Char.ofNat 123 :: joinCommas (pyReprKvs kvs) ++ [Char.ofNat 125]

def pyReprList : List Json → List Str
  | [] => []
  | j :: js => pyRepr j :: pyReprList js

def pyReprKvs : List (Str × Json) → List Str
  | [] => []
  | (k, v) :: rest =>
    ((Char.ofNat 39 :: k ++ [Char.ofNat 39]) ++ ": ".toList ++ pyRepr v) :: pyReprKvs rest

def joinCommas : List Str → Str
  | [] => []
  | [x] => x
  | x :: xs => x ++ ", ".toList ++ joinCommas xs

end

/-- Python `str()` of a JSON value, as used by f-string interpolation. -/
def pyStrOf : Json → Str
  | .str s => s
  | v => pyRepr v

/-- Characters that may appear in a URL scheme (`urllib.parse`). -/
def isSchemeChar (c : Char) : Bool := c.isAlphanum || c = '+' || c = '-' || c = '.'

/-- Remove a leading `scheme:` from a URL if present, as `urlparse` does. -/
def dropScheme (s : Str) : Str :=
  let pre := s.takeWhile (fun c => !(c = ':'))
  if !pre.isEmpty && pre.length < s.length && (pre.headD 'a').isAlpha && pre.all isSchemeChar
  then s.drop (pre.length + 1) else s

/-- Model of `urllib.parse.urlparse` restricted to the two fields the source
reads: returns `(netloc, path)`.  The netloc is present exactly when the
remainder after the scheme starts with `//`, and extends to the first `/`,
`?` or `#`; the path stops at the query or fragment. -/
def parseUrl (s : Str) : Str × Str :=
  let r := dropScheme s
  if "//".toList.isPrefixOf r then
    let r2 := r.drop 2
    let netloc := r2.takeWhile (fun c => !(c = '/' || c = '?' || c = '#'))
    let rest := r2.dropWhile (fun c => !(c = '/' || c = '?' || c = '#'))
    (netloc, rest.takeWhile (fun c => !(c = '?' || c = '#')))
  else
    ([], s.takeWhile (fun c => !(c = '?' || c = '#')))

/-- Python `str.split(sep)` for a single-character separator: always returns at
least one (possibly empty) piece and keeps empty pieces. -/
def splitOnC (sep : Char) : Str → List Str
  | [] => [[]]
  | c :: l =>
    if c = sep then [] :: splitOnC sep l
    else
      match splitOnC sep l with
      | [] => [[c]]
      | h :: t => (c :: h) :: t

/-- Drop trailing occurrences of a character (the right half of
Python's `str.strip("/")`). -/
def dropTrail (x : Char) (l : Str) : Str :=
  (l.reverse.dropWhile (fun c => decide (c = x))).reverse

/-- Python `str.strip(c)` for a single-character argument. -/
def stripChar (x : Char) (l : Str) : Str :=
  dropTrail x (l.dropWhile (fun c => decide (c = x)))

/-- Python's substring test `a in b` (contiguous infix). -/
def strIn (a b : Str) : Bool := decide (a <:+: b)

/-! ### SHA-1 (model of Python's `hashlib.sha1(...).hexdigest()`) -/

/-- Truncate to 32 bits. -/
def w32 (n : Nat) : Nat := n % 4294967296

/-- Rotate a 32-bit word left by `s` bits. -/
def rotl (s n : Nat) : Nat := w32 (n <<< s) ||| (n >>> (32 - s))

/-- UTF-8 encoding of one code point. -/
def utf8Char (c : Char) : List Nat :=
  let n := c.toNat
  if n < 128 then [n]
  else if n < 2048 then [192 + n / 64, 128 + n % 64]
  else if n < 65536 then [224 + n / 4096, 128 + n / 64 % 64, 128 + n % 64]
  else [240 + n / 262144, 128 + n / 4096 % 64, 128 + n / 64 % 64, 128 + n % 64]

/-- UTF-8 encoding of a string (`str.encode("utf-8")`). -/
def utf8 (s : Str) : List Nat := (s.map utf8Char).flatten

/-- Big-endian byte representation of `n` in `k` bytes. -/
def beBytes : Nat → Nat → List Nat
  | 0, _ => []
  | k + 1, n => beBytes k (n / 256) ++ [n % 256]

/-- SHA-1 message padding: `0x80`, zeros to 56 mod 64, 64-bit bit length. -/
def sha1Pad (msg : List Nat) : List Nat :=
  msg ++ [128] ++ List.replicate ((119 - msg.length % 64) % 64) 0 ++ beBytes 8 (8 * msg.length)

/-- Split a byte list into 64-byte chunks. -/
def chunks64 (l : List Nat) : List (List Nat) :=
  if h : l = [] then [] else l.take 64 :: chunks64 (l.drop 64)
termination_by l.length
decreasing_by
  simp only [List.length_drop]
  have : 0 < l.length := List.length_pos.mpr h
  omega

/-- Combine bytes into big-endian 32-bit words. -/
def toWords : List Nat → List Nat
  | b0 :: b1 :: b2 :: b3 :: rest => (((b0 * 256 + b1) * 256 + b2) * 256 + b3) :: toWords rest
  | _ => []

/-- Extend the 16 message words to 80, accumulating in reverse order. -/
def sha1Extend (rev : List Nat) : Nat → List Nat
  | 0 => rev
  | k + 1 =>
    sha1Extend (rotl 1 ((rev.getD 2 0) ^^^ (rev.getD 7 0) ^^^ (rev.getD 13 0) ^^^ (rev.getD 15 0)) :: rev) k

/-- The SHA-1 round function. -/
def sha1F (i b c d : Nat) : Nat :=
  if i < 20 then (b &&& c) ||| ((b ^^^ 4294967295) &&& d)
  else if i < 40 then b ^^^ c ^^^ d
  else if i < 60 then (b &&& c) ||| (b &&& d) ||| (c &&& d)
  else b ^^^ c ^^^ d

/-- The SHA-1 round constants. -/
def sha1K (i : Nat) : Nat :=
  if i < 20 then 1518500249
  else if i < 40 then 1859775393
  else if i < 60 then 2400959708
  else 3395469782

/-- Run the 80 SHA-1 rounds over the word schedule. -/
def sha1Rounds : Nat → List Nat → Nat × Nat × Nat × Nat × Nat → Nat × Nat × Nat × Nat × Nat
  | _, [], st => st
  | i, w :: ws, (a, b, c, d, e) =>
    sha1Rounds (i + 1) ws (w32 (rotl 5 a + sha1F i b c d + e + sha1K i + w), a, rotl 30 b, c, d)

/-- Process one 64-byte chunk. -/
def sha1Chunk (h : Nat × Nat × Nat × Nat × Nat) (chunk : List Nat) : Nat × Nat × Nat × Nat × Nat :=
  let (h0, h1, h2, h3, h4) := h
  let ws := (sha1Extend (toWords chunk).reverse 64).reverse
  let (a, b, c, d, e) := sha1Rounds 0 ws (h0, h1, h2, h3, h4)
  (w32 (h0 + a), w32 (h1 + b), w32 (h2 + c), w32 (h3 + d), w32 (h4 + e))

/-- One lower-case hex digit. -/
def hexDigit (n : Nat) : Char :=
  if n < 10 then Char.ofNat (48 + n) else Char.ofNat (87 + n)

/-- Eight-hex-digit rendering of a 32-bit word. -/
def hexWord (n : Nat) : Str :=
  [28, 24, 20, 16, 12, 8, 4, 0].map (fun k => hexDigit ((n >>> k) &&& 15))

/-- The source's `sha1`: `hashlib.sha1((s or "").encode("utf-8")).hexdigest()`
for a string argument (the `or ""` coercion is applied by `fprint` below). -/
def sha1 (s : Str) : Str :=
  let (a, b, c, d, e) :=
    (chunks64 (sha1Pad (utf8 s))).foldl sha1Chunk
      (1732584193, 4023233417, 2562383102, 271733878, 3285377520)
  hexWord a ++ hexWord b ++ hexWord c ++ hexWord d ++ hexWord e

/-! ### The common posting schema and the provider adapters -/

/-- The dictionary every adapter appends to its output list.  `company` and
`source` are always Python strings in the source; the other fields hold
whatever JSON value the provider response supplied. -/
structure Posting where
  company : Str
  title : Json
  location : Json
  url : Json
  source : Str
  postedAt : Json
  snippet : Json

/-- Model of the `datetime.fromtimestamp(ms / 1000, tz=timezone.utc).isoformat()`
call in the Lever adapter: an unspecified pure function of the millisecond
epoch value (no claim constrains its output, only that it is a function). -/
def pyDatetimeIso (millis : Int) : Str := intToStr millis

/-- Run one adapter loop body over the iterated entries, mirroring Python's
`for`/`try` interaction: entries processed before an exception keep their
appended postings, the exception aborts the rest; the flag records whether an
exception occurred. -/
def runLoopE (step : Json → Except PyErr (Option Posting)) : List Json → List Posting × Bool
  | [] => ([], false)
  | j :: rest =>
    match step j with
    | .error _ => ([], true)
    | .ok none => runLoopE step rest
    | .ok (some p) =>
      let r := runLoopE step rest
      (p :: r.1, r.2)

/-- The postings accumulated by an adapter loop (what the adapter returns after
its `except` clause swallows any exception). -/
def runLoop (step : Json → Except PyErr (Option Posting)) (js : List Json) : List Posting :=
  (runLoopE step js).1

/-- Loop body of `fetch_greenhouse`. -/
def greenhouseStep (slug name : Str) (j : Json) : Except PyErr (Option Posting) := do
  let title ← pyGet j "title".toList .null
  let loc0 ← pyGet j "location".toList .null
  let location ← pyGet (pyOr loc0 (.obj [])) "name".toList (.str [])
  let url ← pyGet j "absolute_url".toList .null
  let postedAt ← pyGet j "updated_at".toList .null
  let content ← pyGet j "content".toList (.str [])
  let raw ← strOrEmpty content
  pure (some { company := pyOrS name slug, title := title, location := location,
               url := url, source := "Greenhouse".toList, postedAt := postedAt,
               snippet := .str ((strip_html raw).take 280) })

/-- `fetch_greenhouse(slug, name)`.  The `resp` argument is the outcome of
`get_json` (`.error` for any transport error, non-2xx status or JSON decode
failure, all of which `requests`/`raise_for_status` surface as exceptions). -/
def fetch_greenhouse (slug name : Str) (resp : Except Unit Json) : List Posting :=
  match resp with
  | .error _ => []
  | .ok data =>
    match (do pyIter (← pyGet data "jobs".toList (.arr [])) : Except PyErr (List Json)) with
    | .error _ => []
    | .ok js => runLoop (greenhouseStep slug name) js

/-- The Lever `postedAt` conditional expression:
`datetime.fromtimestamp(j.get("createdAt",0)/1000, tz=utc).isoformat() if
j.get("createdAt") else None` (a truthy non-numeric value raises). -/
def leverPostedAt (created : Json) : Except PyErr Json :=
  if truthy created then (asNum created).map (fun n => .str (pyDatetimeIso n))
  else .ok .null

/-- Body of the Lever loop after the published-state guard. -/
def leverBody (slug name : Str) (j : Json) : Except PyErr (Option Posting) := do
  let cat0 ← pyGet j "categories".toList .null
  let cat := pyOr cat0 (.obj [])
  let title ← pyGet j "text".toList .null
  let locL ← pyGet cat "location".toList .null
  let locT ← pyGet cat "team".toList .null
  let created ← pyGet j "createdAt".toList .null
  let postedAt ← leverPostedAt created
  let descr ← pyGet j "descriptionPlain".toList .null
  let snippet ← pySlice280 (pyOr descr (.str []))
  let url ← pyGet j "hostedUrl".toList .null
  pure (some { company := pyOrS name slug, title := title,
               location := pyOr (pyOr locL locT) (.str []),
               url := url, source := "Lever".toList,
               postedAt := postedAt, snippet := snippet })

/-- Loop body of `fetch_lever`: `if j.get("state","published").lower() !=
"published": continue`, then the append. -/
def leverStep (slug name : Str) (j : Json) : Except PyErr (Option Posting) := do
  let st ← pyGet j "state".toList (.str "published".toList)
  let s ← asStr st
  if lowerStr s ≠ "published".toList then pure none
  else leverBody slug name j

/-- `fetch_lever(slug, name)`: iterates the response value directly. -/
def fetch_lever (slug name : Str) (resp : Except Unit Json) : List Posting :=
  match resp with
  | .error _ => []
  | .ok data =>
    match pyIter data with
    | .error _ => []
    | .ok js => runLoop (leverStep slug name) js

/-- Loop body of `fetch_workable`. -/
def workableStep (slug name : Str) (j : Json) : Except PyErr (Option Posting) := do
  let title ← pyGet j "title".toList .null
  let loc0 ← pyGet j "location".toList (.obj [])
  let location ← pyGet (pyOr loc0 (.obj [])) "city".toList (.str [])
  let urlA ← pyGet j "application_url".toList .null
  let urlB ← pyGet j "url".toList .null
  let postedA ← pyGet j "published_on".toList .null
  let postedB ← pyGet j "updated_at".toList .null
  let sc ← pyGet j "shortcode".toList (.str [])
  let raw ← strOrEmpty sc
  pure (some { company := pyOrS name slug, title := title, location := location,
               url := pyOr urlA urlB, source := "Workable".toList,
               postedAt := pyOr postedA postedB,
               snippet := .str ((strip_html raw).take 280) })

/-- `fetch_workable(slug, name)`. -/
def fetch_workable (slug name : Str) (resp : Except Unit Json) : List Posting :=
  match resp with
  | .error _ => []
  | .ok data =>
    match (do pyIter (← pyGet data "results".toList (.arr [])) : Except PyErr (List Json)) with
    | .error _ => []
    | .ok js => runLoop (workableStep slug name) js

/-- Loop body of `fetch_smartrecruiters`, including the posting-URL synthesis. -/
def smartStep (slug name : Str) (j : Json) : Except PyErr (Option Posting) := do
  let ref ← pyGet j "ref".toList (.obj [])
  let adUrl ← pyGet ref "jobAdUrl".toList .null
  let applyU ← pyGet j "applyUrl".toList .null
  let postU ← pyGet j "postingUrl".toList .null
  let u0 := pyOr (pyOr adUrl applyU) postU
  let idv ← pyGet j "id".toList .null
  let u := if !truthy u0 && truthy idv
    then Json.str ("https://jobs.smartrecruiters.com/".toList ++ slug ++ ['/'] ++ pyStrOf idv)
    else u0
  let title ← pyGet j "name".toList .null
  let loc0 ← pyGet j "location".toList (.obj [])
  let location ← pyGet (pyOr loc0 (.obj [])) "city".toList (.str [])
  let postedA ← pyGet j "releasedDate".toList .null
  let postedB ← pyGet j "createdOn".toList .null
  let jobAd ← pyGet j "jobAd".toList (.obj [])
  let sections ← pyGet jobAd "sections".toList (.obj [])
  let cd ← pyGet sections "companyDescription".toList (.str [])
  let raw ← strOrEmpty cd
  pure (some { company := pyOrS name slug, title := title, location := location,
               url := u, source := "SmartRecruiters".toList,
               postedAt := pyOr postedA postedB,
               snippet := .str ((strip_html raw).take 280) })

/-- `fetch_smartrecruiters(slug, name)`. -/
def fetch_smartrecruiters (slug name : Str) (resp : Except Unit Json) : List Posting :=
  match resp with
  | .error _ => []
  | .ok data =>
    match (do pyIter (← pyGet data "content".toList (.arr [])) : Except PyErr (List Json)) with
    | .error _ => []
    | .ok js => runLoop (smartStep slug name) js

/-- Loop body of the inner (per-job) Ashby loop. -/
def ashbyStep (slug name : Str) (j : Json) : Except PyErr (Option Posting) := do
  let title ← pyGet j "title".toList .null
  let ln ← pyGet j "locationName".toList .null
  let ls ← pyGet j "locationSlug".toList .null
  let url ← pyGet j "applyUrl".toList .null
  let postedAt ← pyGet j "publishedAt".toList .null
  pure (some { company := pyOrS name slug, title := title,
               location := pyOr (pyOr ln ls) (.str []), url := url,
               source := "Ashby".toList, postedAt := postedAt, snippet := .str [] })

/-- The nested team loop of `fetch_ashby`: postings appended before an
exception survive; the exception aborts the remaining teams. -/
def ashbyTeams (slug name : Str) : List Json → List Posting
  | [] => []
  | t :: ts =>
    match (do pyIter (pyOr (← pyGet t "jobs".toList (.arr [])) (.arr [])) :
        Except PyErr (List Json)) with
    | .error _ => []
    | .ok jobs =>
      match runLoopE (ashbyStep slug name) jobs with
      | (ps, true) => ps
      | (ps, false) => ps ++ ashbyTeams slug name ts

/-- `fetch_ashby(slug, name)`: `board = (data or {}).get("data",{})
.get("jobBoard",{}) or {}`, then the nested team/job loops. -/
def fetch_ashby (slug name : Str) (resp : Except Unit Json) : List Posting :=
  match resp with
  | .error _ => []
  | .ok data =>
    match (do
        let d2 ← pyGet (pyOr data (.obj [])) "data".toList (.obj [])
        let jb ← pyGet d2 "jobBoard".toList (.obj [])
        pyIter (pyOr (← pyGet (pyOr jb (.obj [])) "teams".toList (.arr [])) (.arr [])) :
        Except PyErr (List Json)) with
    | .error _ => []
    | .ok teams => ashbyTeams slug name teams

/-- The guard and endpoint derivation of `fetch_workday`: returns
`(host, tenant, site)` when the career URL passes the guard
(`".myworkdayjobs.com" in host` and at least one non-empty path segment),
`none` otherwise — in the `none` case the source returns before any request. -/
def workdayTarget (career_url : Str) : Option (Str × Str × Str) :=
  let host := (parseUrl career_url).1
  let parts := (splitOnC '/' (parseUrl career_url).2).filter (fun s => !s.isEmpty)
  if strIn ".myworkdayjobs.com".toList host && !parts.isEmpty
  then some (host, (splitOnC '.' host).headD [], parts.headD [])
  else none

/-- The URL of the POST request `fetch_workday` issues when the guard passes:
`https://{host}/wday/cxs/{tenant}/{site}/jobs`. -/
def workdayApi (career_url : Str) : Option Str :=
  (workdayTarget career_url).map (fun t =>
    "https://".toList ++ t.1 ++ "/wday/cxs/".toList ++ t.2.1 ++ ['/'] ++ t.2.2 ++ "/jobs".toList)

/-- Loop body of `fetch_workday`. -/
def workdayStep (host name tenant : Str) (j : Json) : Except PyErr (Option Posting) := do
  let title ← pyGet j "title".toList .null
  let locs ← pyGet j "locations".toList (.arr [])
  let loc0 ← pyIndex0 (pyOr locs (.arr [.null]))
  let ep ← pyGet j "externalPath".toList (.str [])
  let postedA ← pyGet j "postedOn".toList .null
  let postedB ← pyGet j "startDate".toList .null
  let sd ← pyGet j "shortDescription".toList (.str [])
  let raw ← strOrEmpty sd
  pure (some { company := pyOrS name tenant, title := title,
               location := pyOr loc0 (.str []),
               url := .str ("https://".toList ++ host ++ pyStrOf ep),
               source := "Workday".toList, postedAt := pyOr postedA postedB,
               snippet := .str ((strip_html raw).take 280) })

/-- `fetch_workday(career_url, name)`: guard first (no request attempted when
it fails, so the result cannot depend on `resp` there), then the POST. -/
def fetch_workday (career_url name : Str) (resp : Except Unit Json) : List Posting :=
  match workdayTarget career_url with
  | none => []
  | some (host, tenant, _site) =>
    match resp with
    | .error _ => []
    | .ok data =>
      match (do pyIter (pyOr (← pyGet data "jobPostings".toList (.arr [])) (.arr [])) :
          Except PyErr (List Json)) with
      | .error _ => []
      | .ok js => runLoop (workdayStep host name tenant) js

/-! ### Detection, slug resolution, keyword filter, dedup -/

/-- The six provider tags of `detect_provider`'s membership set. -/
def tagList : List Str :=
  ["greenhouse".toList, "lever".toList, "workable".toList, "ashby".toList,
   "smartrecruiters".toList, "workday".toList]

/-- The hostname-table half of `detect_provider`: the chain of substring tests
against the lower-cased netloc of `career_url`. -/
def hostLookup (career_url : Str) : Str :=
  let host := lowerStr (parseUrl career_url).1
  if strIn "greenhouse.io".toList host then "greenhouse".toList
  else if strIn "lever.co".toList host then "lever".toList
  else if strIn "workable.com".toList host then "workable".toList
  else if strIn "ashbyhq.com".toList host || strIn "jobs.ashbyhq.com".toList host then
    "ashby".toList
  else if strIn "smartrecruiters.com".toList host then "smartrecruiters".toList
  else if strIn "myworkdayjobs.com".toList host then "workday".toList
  else []

/-- `detect_provider(provider, slug, career_url)`: the provider hint is
stripped and lower-cased, then tested against the six known tags; otherwise
the hostname table decides; otherwise the empty string (the source's
representation of an unknown provider). -/
def detect_provider (provider _slug career_url : Str) : Str :=
  let prov := lowerStr (pyStrip provider)
  if prov ∈ tagList then prov else hostLookup career_url

/-- `slug_from_url(prov, career_url)`: `path = urlparse(url).path.strip("/")`,
`parts = path.split("/") if path else []`, then `parts[0] if parts else ""`
for each of the five non-Workday providers, and `""` for anything else. -/
def slug_from_url (prov career_url : Str) : Str :=
  let path := stripChar '/' (parseUrl career_url).2
  let parts := if path.isEmpty then ([] : List Str) else splitOnC '/' path
  if prov = "greenhouse".toList then parts.headD []
  else if prov = "lever".toList then parts.headD []
  else if prov = "workable".toList then parts.headD []
  else if prov = "ashby".toList then parts.headD []
  else if prov = "smartrecruiters".toList then parts.headD []
  else []

/-- The keyword tokens: split on `;`, strip each token, keep the non-empty
ones lower-cased (`[k.strip().lower() for k in kw.split(";") if k.strip()]`). -/
def kwTokens (kw : Str) : List Str :=
  (splitOnC ';' kw).filterMap (fun k =>
    if (pyStrip k).isEmpty then none else some (lowerStr (pyStrip k)))

/-- The haystack of `keyword_filter`:
`f"{r.get('title','')} {r.get('snippet','')} {r.get('location','')}".lower()`. -/
def hayOf (r : Posting) : Str :=
  lowerStr (pyStrOf r.title ++ [' '] ++ pyStrOf r.snippet ++ [' '] ++ pyStrOf r.location)

/-- The accumulating loop of `keyword_filter`. -/
def kfLoop (kws : List Str) : List Posting → List Posting
  | [] => []
  | r :: rs => if kws.any (fun k => strIn k (hayOf r)) then r :: kfLoop kws rs else kfLoop kws rs

/-- `keyword_filter(rows, kw_str)`: no tokens means no filtering. -/
def keyword_filter (rows : List Posting) (kw : Str) : List Posting :=
  let kws := kwTokens kw
  if kws.isEmpty then rows else kfLoop kws rows

/-- The fingerprint computed in `main`'s dedup loop: `sha1(r.get("url"))`
with `sha1(s) = hashlib.sha1((s or "").encode("utf-8")).hexdigest()`; a falsy
url hashes as `""`, a truthy non-string raises `AttributeError`. -/
def fprint (v : Json) : Except PyErr Str :=
  if truthy v then
    match v with
    | .str s => .ok (sha1 s)
    | _ => .error .attributeError
  else .ok (sha1 [])

/-- Total companion of `fprint` on the values where the source does not raise
(string or falsy urls): the digest of the url string, or of `""`. -/
def fprintD (v : Json) : Str :=
  sha1 (match v with | .str s => s | _ => [])

/-- The state of `main`'s dedup loop: the `fresh` accumulator, the `newkeys`
set, and the loaded `seen` set (which the loop only reads). -/
structure DedupSt where
  fresh : List Posting
  newkeys : Finset Str
  seen : Finset Str

/-- One iteration of the dedup loop: `key = sha1(r.get("url")); if key not in
seen: fresh.append(r); newkeys.add(key)`.  Membership is tested against the
persisted `seen` set only. -/
def dedupStep (st : DedupSt) (r : Posting) : Except PyErr DedupSt := do
  let key ← fprint r.url
  if key ∉ st.seen then
    pure { st with fresh := st.fresh ++ [r], newkeys := insert key st.newkeys }
  else pure st

/-- The whole dedup pass of `main` over the accumulated `all_rows`, starting
from empty `fresh`/`newkeys` and the loaded `seen` set. -/
def partitionRun (rows : List Posting) (seen : Finset Str) : Except PyErr DedupSt :=
  rows.foldlM dedupStep { fresh := [], newkeys := ∅, seen := seen }

/-! ### Spec-side definitions (used to state the claims against the code) -/

/-- Spec wording: "the first non-empty path segment of `careerUrl` (path split
on `/`, empty segments discarded, first segment taken)". -/
def firstNonEmptySegment (u : Str) : Str :=
  ((splitOnC '/' (parseUrl u).2).filter (fun s => !s.isEmpty)).headD []

/-- The five non-Workday provider tags (the providers whose identifier comes
from the slug resolver). -/
def nonWorkdayTags : List Str :=
  ["greenhouse".toList, "lever".toList, "workable".toList, "ashby".toList,
   "smartrecruiters".toList]

/-- Spec wording of the detector as the claim states it: the hint is returned
when it case-insensitively matches a known tag (no trimming), otherwise the
hostname table decides. -/
def detectStated (provider _slug career_url : Str) : Str :=
  let p := lowerStr provider
  if p ∈ tagList then p else hostLookup career_url

/-- Spec wording of the snippet convention: the value is a string obtained by
markup-stripping and trimming some raw text and truncating it to 280
characters. -/
def snippetStrippedTrunc (v : Json) : Prop :=
  ∃ raw : Str, v = .str ((strip_html raw).take 280)

/-- The length of a snippet value in the sense of Python's `len`
(characters of a string, elements of a list, `0` otherwise). -/
def snipLen : Json → Nat
  | .str s => s.length
  | .arr xs => xs.length
  | _ => 0

/-- Spec wording of the keyword filter: an order-preserving `filter` keeping
the postings some token hits. -/
def keywordFilterSpec (rows : List Posting) (kw : Str) : List Posting :=
  if kwTokens kw = [] then rows
  else rows.filter (fun r => (kwTokens kw).any (fun k => strIn k (hayOf r)))

/-! ### Helper lemmas -/

theorem bind_ok {α β : Type} {x : Except PyErr α} {f : α → Except PyErr β} {y : β}
    (h : x >>= f = .ok y) : ∃ a, x = .ok a ∧ f a = .ok y := by
  cases x with
  | error e => simp [Bind.bind, Except.bind] at h
  | ok a => exact ⟨a, rfl, by simpa [Bind.bind, Except.bind] using h⟩

theorem pure_ok {α : Type} (a : α) : (pure a : Except PyErr α) = .ok a := rfl

theorem dropWhile_head {α : Type} {p : α → Bool} :
    ∀ {l : List α} {c : α} {cs : List α}, l.dropWhile p = c :: cs → p c = false := by
  intro l
  induction l with
  | nil => intro c cs h; simp [List.dropWhile] at h
  | cons a as ih =>
    intro c cs h
    rw [List.dropWhile_cons] at h
    split at h
    · exact ih h
    · cases h; simp_all

theorem pyStrip_last {l : Str} {c : Char} {cs : Str}
    (h : pyStrip l = cs ++ [c]) : isPySpace c = false := by
  unfold pyStrip at h
  have h2 : (l.dropWhile isPySpace).reverse.dropWhile isPySpace = c :: cs.reverse := by
    have := congrArg List.reverse h
    simpa using this
  exact dropWhile_head h2

theorem splitOnC_ne_nil (sep : Char) (l : Str) : splitOnC sep l ≠ [] := by
  cases l with
  | nil => simp [splitOnC]
  | cons c cs =>
    simp only [splitOnC]
    split
    · simp
    · split <;> simp

theorem headD_splitOnC (sep : Char) (l : Str) :
    (splitOnC sep l).headD [] = l.takeWhile (fun c => !(c = sep)) := by
  induction l with
  | nil => simp [splitOnC]
  | cons c cs ih =>
    simp only [splitOnC, List.takeWhile_cons]
    by_cases hc : c = sep
    · simp [hc]
    · simp only [hc, if_false, decide_False]
      cases hs : splitOnC sep cs with
      | nil => exact absurd hs (splitOnC_ne_nil sep cs)
      | cons h t =>
        rw [hs] at ih
        simp only [List.headD_cons] at ih ⊢
        simp [hc, ih]

theorem filter_splitOnC_dropWhile (sep : Char) (l : Str) :
    (splitOnC sep (l.dropWhile (fun c => decide (c = sep)))).filter (fun s => !s.isEmpty) =
      (splitOnC sep l).filter (fun s => !s.isEmpty) := by
  induction l with
  | nil => rfl
  | cons c cs ih =>
    by_cases hc : c = sep
    · rw [List.dropWhile_cons]
      simp only [hc, decide_True, if_true]
      rw [ih]
      simp [splitOnC]
    · rw [List.dropWhile_cons]
      simp [hc]

theorem splitOnC_append_sep (sep : Char) (l : Str) :
    splitOnC sep (l ++ [sep]) = splitOnC sep l ++ [[]] := by
  induction l with
  | nil => simp [splitOnC]
  | cons c cs ih =>
    by_cases hc : c = sep
    · simp only [List.cons_append, splitOnC, hc, if_true, ih]
      simp [ih]
    · simp only [List.cons_append, splitOnC, hc, if_false]
      simp only [List.append_eq]
      rw [ih]
      cases hs : splitOnC sep cs with
      | nil => exact absurd hs (splitOnC_ne_nil sep cs)
      | cons h t => simp [hs]

theorem dropTrail_append_sep (x : Char) (l : Str) :
    dropTrail x (l ++ [x]) = dropTrail x l := by
  unfold dropTrail
  simp

theorem dropTrail_append_ne {x c : Char} (l : Str) (hc : c ≠ x) :
    dropTrail x (l ++ [c]) = l ++ [c] := by
  unfold dropTrail
  simp [List.dropWhile_cons, hc]

theorem filter_splitOnC_dropTrail (sep : Char) (l : Str) :
    (splitOnC sep (dropTrail sep l)).filter (fun s => !s.isEmpty) =
      (splitOnC sep l).filter (fun s => !s.isEmpty) := by
  induction l using List.reverseRecOn with
  | nil => rfl
  | append_singleton xs x ih =>
    by_cases hx : x = sep
    · subst hx
      rw [dropTrail_append_sep, ih, splitOnC_append_sep]
      simp
    · rw [dropTrail_append_ne xs hx]

theorem dropTrail_isPrefix (x : Char) (l : Str) : dropTrail x l <+: l := by
  have hsuf : l.reverse.dropWhile (fun c => decide (c = x)) <:+ l.reverse :=
    List.dropWhile_suffix _
  exact List.reverse_suffix.mp (by simpa [dropTrail] using hsuf)

theorem prefix_head {α : Type} {t m : List α} {c : α} {t' : List α}
    (hp : t <+: m) (ht : t = c :: t') : ∃ rest, m = c :: rest := by
  rcases hp with ⟨k, hk⟩
  subst ht
  exact ⟨t' ++ k, by rw [← hk]; simp⟩

theorem stripSplit_head (sep : Char) (l : Str) :
    (if (stripChar sep l).isEmpty then []
     else (splitOnC sep (stripChar sep l)).headD []) =
      ((splitOnC sep l).filter (fun s => !s.isEmpty)).headD [] := by
  have hR : ((splitOnC sep l).filter (fun s => !s.isEmpty)).headD [] =
      ((splitOnC sep (stripChar sep l)).filter (fun s => !s.isEmpty)).headD [] := by
    unfold stripChar
    rw [filter_splitOnC_dropTrail, filter_splitOnC_dropWhile]
  rw [hR]
  cases ht : stripChar sep l with
  | nil => simp [splitOnC]
  | cons c t' =>
    have hcs : decide (c = sep) = false := by
      have hpre : stripChar sep l <+: l.dropWhile (fun x => decide (x = sep)) :=
        dropTrail_isPrefix sep _
      rcases prefix_head hpre ht with ⟨rest, hres⟩
      exact @dropWhile_head Char (fun x => decide (x = sep)) l c rest hres
    have hne : c ≠ sep := by simpa using hcs
    cases hs : splitOnC sep (c :: t') with
    | nil => exact absurd hs (splitOnC_ne_nil sep _)
    | cons h r =>
      have hh : h = (c :: t').takeWhile (fun x => !(x = sep)) := by
        have := headD_splitOnC sep (c :: t')
        rw [hs] at this
        simpa using this
      have hhne : h.isEmpty = false := by
        rw [hh]
        simp [List.takeWhile_cons, hne]
      simp [hs, hhne]

theorem kfLoop_eq_filter (kws : List Str) (rows : List Posting) :
    kfLoop kws rows = rows.filter (fun r => kws.any (fun k => strIn k (hayOf r))) := by
  induction rows with
  | nil => rfl
  | cons r rs ih =>
    simp only [kfLoop, List.filter_cons]
    split <;> simp_all

/-- C3: the keyword filter splits the keyword string on `;`, trims and
lower-cases each token discarding empty ones; with no tokens the input list is
returned unchanged, otherwise exactly the postings for which some token is a
substring of the lower-cased space-joined title/snippet/location survive, as
an order-preserving `List.filter`. -/
theorem claim_C3 :
    (∀ rows kw, keyword_filter rows kw = keywordFilterSpec rows kw) ∧
    (∀ rows, keyword_filter rows [] = rows) := by
  constructor
  · intro rows kw
    unfold keyword_filter keywordFilterSpec
    by_cases hk : kwTokens kw = []
    · simp [hk]
    · have : (kwTokens kw).isEmpty = false := by
        cases h : kwTokens kw with
        | nil => exact absurd h hk
        | cons a l => rfl
      simp only [this, hk, if_false, Bool.false_eq_true]
      exact kfLoop_eq_filter _ _
  · intro rows
    rfl

theorem slug_branch_value (u : Str) :
    (if (stripChar '/' (parseUrl u).2).isEmpty then ([] : List Str)
     else splitOnC '/' (stripChar '/' (parseUrl u).2)).headD [] = firstNonEmptySegment u := by
  rw [show firstNonEmptySegment u =
      ((splitOnC '/' (parseUrl u).2).filter (fun s => !s.isEmpty)).headD [] from rfl]
  rw [← stripSplit_head '/' (parseUrl u).2]
  by_cases hp : (stripChar '/' (parseUrl u).2).isEmpty <;> simp [hp]

/-- C9: for each of the five non-Workday providers the resolved identifier is
the first non-empty path segment of the career URL (path split on `/`, empty
segments discarded, first segment taken), and the empty string when the path
has no non-empty segment. -/
theorem claim_C9 : ∀ prov u, prov ∈ nonWorkdayTags →
    slug_from_url prov u = firstNonEmptySegment u := by
  intro prov u hmem
  have base := slug_branch_value u
  simp only [nonWorkdayTags, List.mem_cons, List.not_mem_nil, or_false] at hmem
  unfold slug_from_url
  rcases hmem with h | h | h | h | h <;> subst h <;> simp only [] <;>
    simp +decide only [if_true, if_false] <;> exact base

/-- C9 witness: for Greenhouse and `https://boards.greenhouse.io/acme/jobs`
the resolver yields `acme`, the first non-empty path segment. -/
theorem claim_C9_witness :
    "greenhouse".toList ∈ nonWorkdayTags ∧
    slug_from_url "greenhouse".toList "https://boards.greenhouse.io/acme/jobs".toList =
      firstNonEmptySegment "https://boards.greenhouse.io/acme/jobs".toList ∧
    firstNonEmptySegment "https://boards.greenhouse.io/acme/jobs".toList = "acme".toList :=
  ⟨by decide, claim_C9 _ _ (by decide), by decide⟩

/-- C5 (amended): the provider hint is first trimmed, then matched
case-insensitively against the six tags and returned on a match regardless of
the career URL; otherwise the hostname-substring table decides (yielding the
empty string, the code's Unknown, when nothing matches); detection ignores
the identifier argument. -/
theorem claim_C5 : ∀ p s u,
    (lowerStr (pyStrip p) ∈ tagList → detect_provider p s u = lowerStr (pyStrip p)) ∧
    (lowerStr (pyStrip p) ∉ tagList → detect_provider p s u = hostLookup u) ∧
    (∀ s', detect_provider p s u = detect_provider p s' u) := by
  intro p s u
  refine ⟨fun h => ?_, fun h => ?_, fun s' => rfl⟩
  · unfold detect_provider
    simp [h]
  · unfold detect_provider
    simp [h]

/-- C5 counterexample: the stated claim tests the hint case-insensitively but
without trimming, so for the hint `" lever"` it would fall through to the
hostname table and yield `greenhouse` for a Greenhouse URL; the code trims
and returns `lever`. -/
theorem claim_C5_counterexample :
    detectStated " lever".toList [] "https://boards.greenhouse.io/a".toList =
      "greenhouse".toList ∧
    detect_provider " lever".toList [] "https://boards.greenhouse.io/a".toList =
      "lever".toList ∧
    lowerStr " lever".toList ∉ tagList := by
  refine ⟨by decide, by decide, by decide⟩

/-- C5 witness: instantiating the amended claim at a padded mixed-case hint
and at an unrecognized hint. -/
theorem claim_C5_witness :
    detect_provider " Lever ".toList [] "https://boards.greenhouse.io/a".toList =
      "lever".toList ∧
    detect_provider "nope".toList [] "https://jobs.lever.co/x".toList =
      hostLookup "https://jobs.lever.co/x".toList := by
  constructor
  · have h1 := (claim_C5 " Lever ".toList [] "https://boards.greenhouse.io/a".toList).1
      (by decide)
    rw [h1]
    decide
  · exact (claim_C5 "nope".toList [] "https://jobs.lever.co/x".toList).2.1 (by decide)

/-- C7: the Workday adapter derives its target from the career URL alone:
when the hostname lacks the `.myworkdayjobs.com` marker or the path has no
non-empty segment the guard fails, the adapter returns the empty sequence and
the result is independent of any response (no request is attempted);
otherwise the tenant is the hostname's first dot-separated label, the site is
the first non-empty path segment, and the request targets
`https://{host}/wday/cxs/{tenant}/{site}/jobs`. -/
theorem claim_C7 : ∀ u,
    ((workdayTarget u = none) ↔
      (strIn ".myworkdayjobs.com".toList (parseUrl u).1 = false ∨
        ((splitOnC '/' (parseUrl u).2).filter (fun s => !s.isEmpty)) = [])) ∧
    (workdayTarget u = none → ∀ name resp, fetch_workday u name resp = []) ∧
    (∀ h t s, workdayTarget u = some (h, t, s) →
      h = (parseUrl u).1 ∧ t = (splitOnC '.' h).headD [] ∧ s = firstNonEmptySegment u ∧
      workdayApi u = some ("https://".toList ++ h ++ "/wday/cxs/".toList ++ t ++ ['/'] ++
        s ++ "/jobs".toList)) := by
  intro u
  refine ⟨?_, ?_, ?_⟩
  · unfold workdayTarget
    dsimp only
    split
    · rename_i hc
      simp only [Bool.and_eq_true] at hc
      constructor
      · intro h; cases h
      · intro h
        rcases h with h | h
        · rw [hc.1] at h; cases h
        · rw [h] at hc
          simp at hc
    · rename_i hc
      simp only [Bool.and_eq_true, not_and] at hc
      constructor
      · intro _
        by_cases hm : strIn ".myworkdayjobs.com".toList (parseUrl u).1 = true
        · right
          have := hc hm
          simpa using this
        · left
          simpa using hm
      · intro _; rfl
  · intro h name resp
    unfold fetch_workday
    rw [h]
  · intro h t s hsome
    unfold workdayTarget at hsome
    dsimp only at hsome
    split at hsome
    · simp only [Option.some.injEq, Prod.mk.injEq] at hsome
      obtain ⟨h1, h2, h3⟩ := hsome
      subst h1; subst h2; subst h3
      rename_i hcond
      refine ⟨rfl, rfl, rfl, ?_⟩
      unfold workdayApi workdayTarget
      dsimp only
      rw [if_pos hcond]
      rfl
    · cases hsome

/-- C7 witness: a non-Workday URL fails the guard and the adapter returns the
empty sequence for any response; a genuine Workday URL produces the
`{host}/wday/cxs/{tenant}/{site}/jobs` target. -/
theorem claim_C7_witness :
    fetch_workday "https://acme.example.com/jobs".toList "n".toList
      (.ok (.obj [])) = [] ∧
    workdayApi "https://acme.myworkdayjobs.com/External/job/1".toList =
      some "https://acme.myworkdayjobs.com/wday/cxs/acme/External/jobs".toList := by
  constructor
  · exact (claim_C7 "https://acme.example.com/jobs".toList).2.1 (by decide) _ _
  · have := (claim_C7 "https://acme.myworkdayjobs.com/External/job/1".toList).2.2
      "acme.myworkdayjobs.com".toList "acme".toList "External".toList (by decide)
    rw [this.2.2.2]
    decide

theorem fprint_ok_eq {v : Json} (h : (fprint v).isOk = true) : fprint v = .ok (fprintD v) := by
  unfold fprint at h ⊢
  unfold fprintD
  by_cases ht : truthy v = true
  · rw [if_pos ht] at h ⊢
    cases v <;> simp_all [Except.isOk, Except.toBool]
  · rw [if_neg ht]
    cases v with
    | str s =>
      have : s = [] := by
        simp [truthy, List.isEmpty_iff] at ht
        exact ht
      simp [this]
    | null => rfl
    | bool b => rfl
    | num n => rfl
    | arr xs => rfl
    | obj kvs => rfl

theorem ok_bind {α β : Type} (a : α) (f : α → Except PyErr β) :
    (Except.ok a >>= f) = f a := rfl

theorem dedupStep_eq {st : DedupSt} {r : Posting}
    (h : fprint r.url = .ok (fprintD r.url)) :
    dedupStep st r =
      if fprintD r.url ∈ st.seen then .ok st
      else .ok { st with fresh := st.fresh ++ [r],
                         newkeys := insert (fprintD r.url) st.newkeys } := by
  unfold dedupStep
  rw [h, ok_bind]
  by_cases hmem : fprintD r.url ∈ st.seen
  · simp [hmem, pure_ok]
  · simp [hmem, pure_ok]

theorem partition_aux (rows : List Posting) :
    ∀ st : DedupSt, (∀ r ∈ rows, (fprint r.url).isOk = true) →
    rows.foldlM dedupStep st = .ok
      { fresh := st.fresh ++ rows.filter (fun r => decide (fprintD r.url ∉ st.seen)),
        newkeys := st.newkeys ∪
          ((rows.filter (fun r => decide (fprintD r.url ∉ st.seen))).map
            (fun r => fprintD r.url)).toFinset,
        seen := st.seen } := by
  induction rows with
  | nil =>
    intro st _
    simp [List.foldlM, pure_ok]
  | cons r rs ih =>
    intro st hok
    have hr : fprint r.url = .ok (fprintD r.url) := fprint_ok_eq (hok r (by simp))
    have hrs : ∀ x ∈ rs, (fprint x.url).isOk = true := fun x hx => hok x (by simp [hx])
    rw [List.foldlM_cons, dedupStep_eq hr]
    by_cases hmem : fprintD r.url ∈ st.seen
    · rw [if_pos hmem, ok_bind, ih st hrs]
      simp [List.filter_cons, hmem]
    · rw [if_neg hmem, ok_bind,
        ih { st with fresh := st.fresh ++ [r],
                     newkeys := insert (fprintD r.url) st.newkeys } hrs]
      simp only [List.filter_cons, hmem, not_false_eq_true, decide_True, decide_not,
        decide_False, Bool.not_false, if_true, List.map_cons, List.toFinset_cons,
        Except.ok.injEq]
      congr 1
      · simp
      · rw [Finset.insert_union, Finset.union_insert]

/-- C1: the dedup partition walks the accumulated postings once in order:
`fresh` is exactly the order-preserving sublist of postings whose url
fingerprint is not in the loaded `seen` set, `newkeys` is the set of those
fingerprints, and membership is tested against the persisted set only — the
loop state carries `seen` unchanged, so two same-run postings sharing a
previously unseen url both survive (both satisfy the same filter predicate). -/
theorem claim_C1 (rows : List Posting) (seen : Finset Str)
    (hok : ∀ r ∈ rows, (fprint r.url).isOk = true) :
    partitionRun rows seen = .ok
      { fresh := rows.filter (fun r => decide (fprintD r.url ∉ seen)),
        newkeys := ((rows.filter (fun r => decide (fprintD r.url ∉ seen))).map
          (fun r => fprintD r.url)).toFinset,
        seen := seen } := by
  unfold partitionRun
  have := partition_aux rows { fresh := [], newkeys := ∅, seen := seen } hok
  simpa using this

/-- A simple concrete posting used by witnesses. -/
def wPost (u : Str) : Posting :=
  { company := "c".toList, title := .str "T".toList, location := .str "L".toList,
    url := .str u, source := "S".toList, postedAt := .null, snippet := .str [] }

/-- C1 witness: two same-run postings sharing the unseen url `u` both survive,
and a posting whose url fingerprint is already persisted is dropped. -/
theorem claim_C1_witness :
    (∀ r ∈ [wPost "u".toList, wPost "u".toList, wPost "v".toList],
      (fprint r.url).isOk = true) ∧
    partitionRun [wPost "u".toList, wPost "u".toList, wPost "v".toList]
        {sha1 "v".toList} = .ok
      { fresh := [wPost "u".toList, wPost "u".toList, wPost "v".toList].filter
          (fun r => decide (fprintD r.url ∉ ({sha1 "v".toList} : Finset Str))),
        newkeys := (([wPost "u".toList, wPost "u".toList, wPost "v".toList].filter
          (fun r => decide (fprintD r.url ∉ ({sha1 "v".toList} : Finset Str)))).map
            (fun r => fprintD r.url)).toFinset,
        seen := {sha1 "v".toList} } :=
  ⟨by decide, claim_C1 _ _ (by decide)⟩

theorem dedupStep_seen {st s1 : DedupSt} {r : Posting}
    (h : dedupStep st r = .ok s1) : s1.seen = st.seen := by
  unfold dedupStep at h
  cases hf : fprint r.url with
  | error e =>
    rw [hf] at h
    simp [Bind.bind, Except.bind] at h
  | ok k =>
    rw [hf, ok_bind] at h
    split at h <;> rw [pure_ok] at h <;> cases h <;> rfl

theorem foldlM_seen : ∀ (rows : List Posting) (st st' : DedupSt),
    rows.foldlM dedupStep st = .ok st' → st'.seen = st.seen := by
  intro rows
  induction rows with
  | nil =>
    intro st st' h
    simp only [List.foldlM_nil, pure_ok] at h
    cases h
    rfl
  | cons r rs ih =>
    intro st st' h
    rw [List.foldlM_cons] at h
    rcases bind_ok h with ⟨s1, h1, h2⟩
    rw [ih s1 st' h2, dedupStep_seen h1]

/-- C8: the dedup loop state returns the `seen` set unchanged (the loop only
reads it), so running the partition twice over the same postings with the
same persisted set — no persist in between — yields the identical result, and
the fingerprint is a pure function of the url value alone. -/
theorem claim_C8 : ∀ (rows : List Posting) (seen : Finset Str) (st : DedupSt),
    partitionRun rows seen = .ok st →
    st.seen = seen ∧ partitionRun rows st.seen = .ok st ∧
    (∀ p q : Posting, p.url = q.url → fprintD p.url = fprintD q.url) := by
  intro rows seen st h
  have hs : st.seen = seen := foldlM_seen rows _ st h
  exact ⟨hs, by rw [hs]; exact h, fun p q hpq => by rw [hpq]⟩

/-- C8 witness: a concrete run whose output state carries the loaded seen set
unchanged and replays to the same fresh result. -/
theorem claim_C8_witness :
    partitionRun [wPost "u".toList] ∅ = .ok
      { fresh := [wPost "u".toList], newkeys := {sha1 "u".toList}, seen := ∅ } ∧
    ({ fresh := [wPost "u".toList], newkeys := {sha1 "u".toList},
       seen := (∅ : Finset Str) } : DedupSt).seen = ∅ ∧
    partitionRun [wPost "u".toList]
      ({ fresh := [wPost "u".toList], newkeys := {sha1 "u".toList},
         seen := (∅ : Finset Str) } : DedupSt).seen = .ok
      { fresh := [wPost "u".toList], newkeys := {sha1 "u".toList}, seen := ∅ } := by
  have h0 : partitionRun [wPost "u".toList] ∅ = .ok
      { fresh := [wPost "u".toList], newkeys := {sha1 "u".toList}, seen := ∅ } := rfl
  have h := claim_C8 [wPost "u".toList] ∅
    { fresh := [wPost "u".toList], newkeys := {sha1 "u".toList}, seen := ∅ } h0
  exact ⟨h0, h.1, h.2.1⟩

theorem leverBody_ne_none (slug name : Str) (j : Json) : leverBody slug name j ≠ .ok none := by
  intro h
  unfold leverBody at h
  rcases bind_ok h with ⟨x1, _, h⟩
  rcases bind_ok h with ⟨x2, _, h⟩
  rcases bind_ok h with ⟨x3, _, h⟩
  rcases bind_ok h with ⟨x4, _, h⟩
  rcases bind_ok h with ⟨x5, _, h⟩
  rcases bind_ok h with ⟨x6, _, h⟩
  rcases bind_ok h with ⟨x7, _, h⟩
  rcases bind_ok h with ⟨x8, _, h⟩
  rcases bind_ok h with ⟨x9, _, h⟩
  rw [pure_ok] at h
  simp at h

/-- C6 (amended): in the Lever adapter an entry whose `state` is a string
whose lower-casing differs from `"published"` is skipped; an entry with no
`state` field takes the default `"published"`, passes the guard and runs the
posting construction, which never skips (it can only produce a posting or
raise). -/
theorem claim_C6 : ∀ (slug name : Str) (kvs : List (Str × Json)),
    (∀ st : Str, lookupKv kvs "state".toList = some (.str st) →
      lowerStr st ≠ "published".toList → leverStep slug name (.obj kvs) = .ok none) ∧
    (lookupKv kvs "state".toList = none →
      leverStep slug name (.obj kvs) = leverBody slug name (.obj kvs)) ∧
    (∀ j, leverBody slug name j ≠ .ok none) := by
  intro slug name kvs
  refine ⟨?_, ?_, leverBody_ne_none slug name⟩
  · intro st hlook hne
    unfold leverStep
    simp only [pyGet, hlook, Option.getD_some, ok_bind, asStr]
    rw [if_pos hne]
    rfl
  · intro hlook
    unfold leverStep
    simp only [pyGet, hlook, Option.getD_none, ok_bind, asStr]
    rw [if_neg (by decide)]

/-- The Lever response entry of the C6 counterexample: state `"Published"`. -/
def jStatePub : Json :=
  .obj [("state".toList, .str "Published".toList), ("text".toList, .str "T".toList),
        ("hostedUrl".toList, .str "u".toList)]

/-- C6 counterexample: an entry whose `state` is present and differs from
`"published"` (namely `"Published"`) is nevertheless included in the output,
so the stated claim's exclusion clause fails on the code. -/
theorem claim_C6_counterexample :
    lookupKv [("state".toList, .str "Published".toList), ("text".toList, .str "T".toList),
        ("hostedUrl".toList, .str "u".toList)] "state".toList =
      some (.str "Published".toList) ∧
    "Published".toList ≠ "published".toList ∧
    (fetch_lever "s".toList "n".toList (.ok (.arr [jStatePub]))).length = 1 :=
  ⟨rfl, by decide, rfl⟩

/-- C6 witness: a `closed` entry is skipped; an entry without a `state` field
runs the posting construction. -/
theorem claim_C6_witness :
    leverStep "s".toList "n".toList (.obj [("state".toList, .str "closed".toList)]) =
      .ok none ∧
    leverStep "s".toList "n".toList (.obj [("text".toList, .str "T".toList)]) =
      leverBody "s".toList "n".toList (.obj [("text".toList, .str "T".toList)]) :=
  ⟨(claim_C6 "s".toList "n".toList _).1 "closed".toList rfl (by decide),
   (claim_C6 "s".toList "n".toList _).2.1 rfl⟩

/-- C10: the Lever published-state test lower-cases the state value first, so
an entry whose state differs from `"published"` only in letter case passes
the guard and is included (the construction after the guard never skips). -/
theorem claim_C10 : ∀ (slug name : Str) (kvs : List (Str × Json)) (st : Str),
    lookupKv kvs "state".toList = some (.str st) →
    lowerStr st = "published".toList →
    leverStep slug name (.obj kvs) = leverBody slug name (.obj kvs) ∧
    (∀ j, leverBody slug name j ≠ .ok none) := by
  intro slug name kvs st hlook heq
  refine ⟨?_, leverBody_ne_none slug name⟩
  unfold leverStep
  simp only [pyGet, hlook, Option.getD_some, ok_bind, asStr]
  rw [if_neg (by simp [heq])]

/-- The Lever response entry of the C10 witness: state `"PUBLISHED"`. -/
def jStateUpper : Json :=
  .obj [("state".toList, .str "PUBLISHED".toList), ("text".toList, .str "T".toList),
        ("hostedUrl".toList, .str "u".toList)]

/-- C10 witness: an all-caps `"PUBLISHED"` state passes the guard and the
entry appears in the adapter output. -/
theorem claim_C10_witness :
    leverStep "s".toList "n".toList jStateUpper =
      leverBody "s".toList "n".toList jStateUpper ∧
    (fetch_lever "s".toList "n".toList (.ok (.arr [jStateUpper]))).length = 1 :=
  ⟨(claim_C10 "s".toList "n".toList
      [("state".toList, .str "PUBLISHED".toList), ("text".toList, .str "T".toList),
        ("hostedUrl".toList, .str "u".toList)] "PUBLISHED".toList rfl (by decide)).1,
   rfl⟩

theorem mem_runLoopE {step : Json → Except PyErr (Option Posting)} :
    ∀ {js : List Json} {p : Posting}, p ∈ (runLoopE step js).1 →
      ∃ j ∈ js, step j = .ok (some p) := by
  intro js
  induction js with
  | nil => intro p h; simp [runLoopE] at h
  | cons j rest ih =>
    intro p h
    unfold runLoopE at h
    cases hs : step j with
    | error e => rw [hs] at h; simp at h
    | ok o =>
      rw [hs] at h
      cases o with
      | none =>
        rcases ih h with ⟨j', hj', he⟩
        exact ⟨j', by simp [hj'], he⟩
      | some q =>
        simp only [List.mem_cons] at h
        rcases h with heq | hm
        · exact ⟨j, by simp, by rw [hs, heq]⟩
        · rcases ih hm with ⟨j', hj', he⟩
          exact ⟨j', by simp [hj'], he⟩

theorem mem_runLoop {step : Json → Except PyErr (Option Posting)} {js : List Json}
    {p : Posting} (h : p ∈ runLoop step js) : ∃ j, step j = .ok (some p) := by
  rcases mem_runLoopE h with ⟨j, _, he⟩
  exact ⟨j, he⟩

theorem mem_ashbyTeams {slug name : Str} : ∀ {ts : List Json} {p : Posting},
    p ∈ ashbyTeams slug name ts → ∃ j, ashbyStep slug name j = .ok (some p) := by
  intro ts
  induction ts with
  | nil => intro p h; simp [ashbyTeams] at h
  | cons t rest ih =>
    intro p h
    unfold ashbyTeams at h
    split at h
    · simp at h
    · rename_i jobs hjobs
      split at h
      · rename_i ps hps
        have hmem : p ∈ (runLoopE (ashbyStep slug name) jobs).1 := by
          rw [hps]
          exact h
        rcases mem_runLoopE hmem with ⟨j, _, he⟩
        exact ⟨j, he⟩
      · rename_i ps hps
        rcases List.mem_append.mp h with hm | hm
        · have hmem : p ∈ (runLoopE (ashbyStep slug name) jobs).1 := by
            rw [hps]
            exact hm
          rcases mem_runLoopE hmem with ⟨j, _, he⟩
          exact ⟨j, he⟩
        · exact ih hm

theorem greenhouseStep_snippet {slug name : Str} {j : Json} {p : Posting}
    (h : greenhouseStep slug name j = .ok (some p)) :
    ∃ raw, p.snippet = .str ((strip_html raw).take 280) := by
  unfold greenhouseStep at h
  rcases bind_ok h with ⟨x1, _, h⟩
  rcases bind_ok h with ⟨x2, _, h⟩
  rcases bind_ok h with ⟨x3, _, h⟩
  rcases bind_ok h with ⟨x4, _, h⟩
  rcases bind_ok h with ⟨x5, _, h⟩
  rcases bind_ok h with ⟨x6, _, h⟩
  rcases bind_ok h with ⟨x7, _, h⟩
  rw [pure_ok] at h
  simp only [Except.ok.injEq, Option.some.injEq] at h
  subst h
  exact ⟨x7, rfl⟩

theorem workableStep_snippet {slug name : Str} {j : Json} {p : Posting}
    (h : workableStep slug name j = .ok (some p)) :
    ∃ raw, p.snippet = .str ((strip_html raw).take 280) := by
  unfold workableStep at h
  rcases bind_ok h with ⟨x1, _, h⟩
  rcases bind_ok h with ⟨x2, _, h⟩
  rcases bind_ok h with ⟨x3, _, h⟩
  rcases bind_ok h with ⟨x4, _, h⟩
  rcases bind_ok h with ⟨x5, _, h⟩
  rcases bind_ok h with ⟨x6, _, h⟩
  rcases bind_ok h with ⟨x7, _, h⟩
  rcases bind_ok h with ⟨x8, _, h⟩
  rcases bind_ok h with ⟨x9, _, h⟩
  rw [pure_ok] at h
  simp only [Except.ok.injEq, Option.some.injEq] at h
  subst h
  exact ⟨x9, rfl⟩

theorem smartStep_snippet {slug name : Str} {j : Json} {p : Posting}
    (h : smartStep slug name j = .ok (some p)) :
    ∃ raw, p.snippet = .str ((strip_html raw).take 280) := by
  unfold smartStep at h
  rcases bind_ok h with ⟨x1, _, h⟩
  rcases bind_ok h with ⟨x2, _, h⟩
  rcases bind_ok h with ⟨x3, _, h⟩
  rcases bind_ok h with ⟨x4, _, h⟩
  rcases bind_ok h with ⟨x5, _, h⟩
  rcases bind_ok h with ⟨x6, _, h⟩
  rcases bind_ok h with ⟨x7, _, h⟩
  rcases bind_ok h with ⟨x8, _, h⟩
  rcases bind_ok h with ⟨x9, _, h⟩
  rcases bind_ok h with ⟨x10, _, h⟩
  rcases bind_ok h with ⟨x11, _, h⟩
  rcases bind_ok h with ⟨x12, _, h⟩
  rcases bind_ok h with ⟨x13, _, h⟩
  rcases bind_ok h with ⟨x14, _, h⟩
  rw [pure_ok] at h
  simp only [Except.ok.injEq, Option.some.injEq] at h
  subst h
  exact ⟨x14, rfl⟩

theorem workdayStep_snippet {host name tenant : Str} {j : Json} {p : Posting}
    (h : workdayStep host name tenant j = .ok (some p)) :
    ∃ raw, p.snippet = .str ((strip_html raw).take 280) := by
  unfold workdayStep at h
  rcases bind_ok h with ⟨x1, _, h⟩
  rcases bind_ok h with ⟨x2, _, h⟩
  rcases bind_ok h with ⟨x3, _, h⟩
  rcases bind_ok h with ⟨x4, _, h⟩
  rcases bind_ok h with ⟨x5, _, h⟩
  rcases bind_ok h with ⟨x6, _, h⟩
  rcases bind_ok h with ⟨x7, _, h⟩
  rcases bind_ok h with ⟨x8, _, h⟩
  rw [pure_ok] at h
  simp only [Except.ok.injEq, Option.some.injEq] at h
  subst h
  exact ⟨x8, rfl⟩

theorem ashbyStep_snippet {slug name : Str} {j : Json} {p : Posting}
    (h : ashbyStep slug name j = .ok (some p)) : p.snippet = .str [] := by
  unfold ashbyStep at h
  rcases bind_ok h with ⟨x1, _, h⟩
  rcases bind_ok h with ⟨x2, _, h⟩
  rcases bind_ok h with ⟨x3, _, h⟩
  rcases bind_ok h with ⟨x4, _, h⟩
  rcases bind_ok h with ⟨x5, _, h⟩
  rw [pure_ok] at h
  simp only [Except.ok.injEq, Option.some.injEq] at h
  subst h
  rfl

theorem leverStep_snippet {slug name : Str} {j : Json} {p : Posting}
    (h : leverStep slug name j = .ok (some p)) :
    ∃ v, pySlice280 v = .ok p.snippet := by
  unfold leverStep at h
  rcases bind_ok h with ⟨x1, _, h⟩
  rcases bind_ok h with ⟨x2, _, h⟩
  split at h
  · rw [pure_ok] at h
    simp at h
  · unfold leverBody at h
    rcases bind_ok h with ⟨y1, _, h⟩
    rcases bind_ok h with ⟨y2, _, h⟩
    rcases bind_ok h with ⟨y3, _, h⟩
    rcases bind_ok h with ⟨y4, _, h⟩
    rcases bind_ok h with ⟨y5, _, h⟩
    rcases bind_ok h with ⟨y6, _, h⟩
    rcases bind_ok h with ⟨y7, _, h⟩
    rcases bind_ok h with ⟨y8, hy8, h⟩
    rcases bind_ok h with ⟨y9, _, h⟩
    rw [pure_ok] at h
    simp only [Except.ok.injEq, Option.some.injEq] at h
    subst h
    exact ⟨pyOr y7 (.str []), hy8⟩

theorem mem_fetch_greenhouse {slug name : Str} {resp : Except Unit Json} {p : Posting}
    (h : p ∈ fetch_greenhouse slug name resp) :
    ∃ j, greenhouseStep slug name j = .ok (some p) := by
  unfold fetch_greenhouse at h
  cases resp with
  | error e => simp at h
  | ok data =>
    dsimp only at h
    cases hx : (do pyIter (← pyGet data "jobs".toList (.arr [])) :
        Except PyErr (List Json)) with
    | error e => rw [hx] at h; simp at h
    | ok js => rw [hx] at h; exact mem_runLoop h

theorem mem_fetch_lever {slug name : Str} {resp : Except Unit Json} {p : Posting}
    (h : p ∈ fetch_lever slug name resp) :
    ∃ j, leverStep slug name j = .ok (some p) := by
  unfold fetch_lever at h
  cases resp with
  | error e => simp at h
  | ok data =>
    dsimp only at h
    cases hx : (pyIter data :
        Except PyErr (List Json)) with
    | error e => rw [hx] at h; simp at h
    | ok js => rw [hx] at h; exact mem_runLoop h

theorem mem_fetch_workable {slug name : Str} {resp : Except Unit Json} {p : Posting}
    (h : p ∈ fetch_workable slug name resp) :
    ∃ j, workableStep slug name j = .ok (some p) := by
  unfold fetch_workable at h
  cases resp with
  | error e => simp at h
  | ok data =>
    dsimp only at h
    cases hx : (do pyIter (← pyGet data "results".toList (.arr [])) :
        Except PyErr (List Json)) with
    | error e => rw [hx] at h; simp at h
    | ok js => rw [hx] at h; exact mem_runLoop h

theorem mem_fetch_smartrecruiters {slug name : Str} {resp : Except Unit Json} {p : Posting}
    (h : p ∈ fetch_smartrecruiters slug name resp) :
    ∃ j, smartStep slug name j = .ok (some p) := by
  unfold fetch_smartrecruiters at h
  cases resp with
  | error e => simp at h
  | ok data =>
    dsimp only at h
    cases hx : (do pyIter (← pyGet data "content".toList (.arr [])) :
        Except PyErr (List Json)) with
    | error e => rw [hx] at h; simp at h
    | ok js => rw [hx] at h; exact mem_runLoop h

theorem mem_fetch_ashby {slug name : Str} {resp : Except Unit Json} {p : Posting}
    (h : p ∈ fetch_ashby slug name resp) :
    ∃ j, ashbyStep slug name j = .ok (some p) := by
  unfold fetch_ashby at h
  cases resp with
  | error e => simp at h
  | ok data =>
    dsimp only at h
    cases hx : (do
        let d2 ← pyGet (pyOr data (.obj [])) "data".toList (.obj [])
        let jb ← pyGet d2 "jobBoard".toList (.obj [])
        pyIter (pyOr (← pyGet (pyOr jb (.obj [])) "teams".toList (.arr [])) (.arr [])) :
        Except PyErr (List Json)) with
    | error e => rw [hx] at h; simp at h
    | ok js => rw [hx] at h; exact mem_ashbyTeams h

theorem mem_fetch_workday {u name : Str} {resp : Except Unit Json} {p : Posting}
    (h : p ∈ fetch_workday u name resp) :
    ∃ host tenant j, workdayStep host name tenant j = .ok (some p) := by
  unfold fetch_workday at h
  cases hw : workdayTarget u with
  | none => rw [hw] at h; simp at h
  | some x =>
    rcases x with ⟨host, tenant, site⟩
    rw [hw] at h
    cases resp with
    | error e => simp at h
    | ok data =>
      dsimp only at h
      cases hx : (do pyIter (pyOr (← pyGet data "jobPostings".toList (.arr [])) (.arr [])) :
          Except PyErr (List Json)) with
      | error e => rw [hx] at h; simp at h
      | ok js =>
        rw [hx] at h
        rcases mem_runLoop h with ⟨j, he⟩
        exact ⟨host, tenant, j, he⟩

theorem pySlice280_len {v w : Json} (h : pySlice280 v = .ok w) : snipLen w ≤ 280 := by
  unfold pySlice280 at h
  cases v with
  | str s =>
    simp only [Except.ok.injEq] at h
    subst h
    simp [snipLen]
  | arr xs =>
    simp only [Except.ok.injEq] at h
    subst h
    simp [snipLen]
  | null => cases h
  | bool b => cases h
  | num n => cases h
  | obj kvs => cases h

theorem strippedTrunc_len {v : Json} (h : snippetStrippedTrunc v) : snipLen v ≤ 280 := by
  rcases h with ⟨raw, hraw⟩
  subst hraw
  simp [snipLen]

/-- C4 (amended): every posting emitted by any of the six adapters has a
snippet of length at most 280, the same truncation limit everywhere; the
Greenhouse, Workable, SmartRecruiters and Workday snippets are the
280-truncation of a markup-stripped, trimmed raw text; the Ashby snippet is
always empty; the Lever snippet is the raw `descriptionPlain` value sliced to
280 without markup-stripping or trimming. -/
theorem claim_C4 :
    (∀ slug name resp p, p ∈ fetch_greenhouse slug name resp →
      snippetStrippedTrunc p.snippet ∧ snipLen p.snippet ≤ 280) ∧
    (∀ slug name resp p, p ∈ fetch_workable slug name resp →
      snippetStrippedTrunc p.snippet ∧ snipLen p.snippet ≤ 280) ∧
    (∀ slug name resp p, p ∈ fetch_smartrecruiters slug name resp →
      snippetStrippedTrunc p.snippet ∧ snipLen p.snippet ≤ 280) ∧
    (∀ u name resp p, p ∈ fetch_workday u name resp →
      snippetStrippedTrunc p.snippet ∧ snipLen p.snippet ≤ 280) ∧
    (∀ slug name resp p, p ∈ fetch_ashby slug name resp →
      p.snippet = .str [] ∧ snipLen p.snippet ≤ 280) ∧
    (∀ slug name resp p, p ∈ fetch_lever slug name resp →
      (∃ v, pySlice280 v = .ok p.snippet) ∧ snipLen p.snippet ≤ 280) := by
  refine ⟨?_, ?_, ?_, ?_, ?_, ?_⟩
  · intro slug name resp p h
    rcases mem_fetch_greenhouse h with ⟨j, hj⟩
    have hs := greenhouseStep_snippet hj
    exact ⟨hs, strippedTrunc_len hs⟩
  · intro slug name resp p h
    rcases mem_fetch_workable h with ⟨j, hj⟩
    have hs := workableStep_snippet hj
    exact ⟨hs, strippedTrunc_len hs⟩
  · intro slug name resp p h
    rcases mem_fetch_smartrecruiters h with ⟨j, hj⟩
    have hs := smartStep_snippet hj
    exact ⟨hs, strippedTrunc_len hs⟩
  · intro u name resp p h
    rcases mem_fetch_workday h with ⟨host, tenant, j, hj⟩
    have hs := workdayStep_snippet hj
    exact ⟨hs, strippedTrunc_len hs⟩
  · intro slug name resp p h
    rcases mem_fetch_ashby h with ⟨j, hj⟩
    have hs := ashbyStep_snippet hj
    exact ⟨hs, by rw [hs]; simp [snipLen]⟩
  · intro slug name resp p h
    rcases mem_fetch_lever h with ⟨j, hj⟩
    rcases leverStep_snippet hj with ⟨v, hv⟩
    exact ⟨⟨v, hv⟩, pySlice280_len hv⟩

/-- The Lever response entry of the C4 counterexample: a `descriptionPlain`
with a trailing space, which the Lever adapter passes through verbatim. -/
def jTrailSpace : Json :=
  .obj [("descriptionPlain".toList, .str "hi ".toList),
        ("text".toList, .str "T".toList), ("hostedUrl".toList, .str "u".toList)]

/-- C4 counterexample: the Lever adapter emits the snippet `"hi "` for this
entry, and no markup-stripped-and-trimmed raw text can truncate to `"hi "`
(a trimmed string never ends in whitespace), so the stated uniform
markup-stripped/trimmed snippet convention fails on the Lever adapter. -/
theorem claim_C4_counterexample :
    (fetch_lever "s".toList "n".toList (.ok (.arr [jTrailSpace]))).map Posting.snippet =
      [.str "hi ".toList] ∧
    ¬ snippetStrippedTrunc (.str "hi ".toList) := by
  refine ⟨rfl, ?_⟩
  rintro ⟨raw, hraw⟩
  simp only [Json.str.injEq] at hraw
  have hlen : ("hi ".toList).length = ((strip_html raw).take 280).length :=
    congrArg List.length hraw
  simp only [List.length_take] at hlen
  have hle : (strip_html raw).length ≤ 280 := by
    have h3 : ("hi ".toList).length = 3 := rfl
    rw [h3] at hlen
    omega
  rw [List.take_of_length_le hle] at hraw
  have hsp : isPySpace ' ' = false := by
    have : strip_html raw = ['h', 'i'] ++ [' '] := by
      rw [← hraw]
      rfl
    exact pyStrip_last this
  simp [isPySpace] at hsp

/-- A well-formed Greenhouse job entry used by the C2 and C4 evidence. -/
def gGoodJob : Json :=
  .obj [("title".toList, .str "T".toList), ("absolute_url".toList, .str "gu".toList),
        ("content".toList, .str "<p>Hi</p>".toList)]

/-- The posting the Greenhouse adapter produces from `gGoodJob`. -/
def gGoodPost : Posting :=
  { company := "n".toList, title := .str "T".toList, location := .str [],
    url := .str "gu".toList, source := "Greenhouse".toList, postedAt := .null,
    snippet := .str ((strip_html "<p>Hi</p>".toList).take 280) }

/-- C4 witness: a concrete Greenhouse posting whose snippet is the truncated
markup-stripped content, with length at most 280. -/
theorem claim_C4_witness :
    gGoodPost ∈ fetch_greenhouse "s".toList "n".toList
      (.ok (.obj [("jobs".toList, .arr [gGoodJob])])) ∧
    snippetStrippedTrunc gGoodPost.snippet ∧ snipLen gGoodPost.snippet ≤ 280 := by
  have hm : gGoodPost ∈ fetch_greenhouse "s".toList "n".toList
      (.ok (.obj [("jobs".toList, .arr [gGoodJob])])) := by
    rw [show fetch_greenhouse "s".toList "n".toList
        (.ok (.obj [("jobs".toList, .arr [gGoodJob])])) = [gGoodPost] from rfl]
    exact List.mem_singleton.mpr rfl
  exact ⟨hm, (claim_C4.1 "s".toList "n".toList _ gGoodPost hm).1,
    (claim_C4.1 "s".toList "n".toList _ gGoodPost hm).2⟩

/-- C2 (amended): no adapter ever raises (each is a total function into a
posting list), and whenever the HTTP call itself fails — transport error,
non-2xx status or an undecodable body, all surfaced by `get_json` as an
exception — every adapter returns the empty sequence; a response malformed at
the top level likewise yields the empty sequence, but an entry malformed in
mid-iteration only aborts the loop, returning the postings accumulated before
it, which need not be empty (see the counterexample). -/
theorem claim_C2 :
    ((∀ slug name, fetch_greenhouse slug name (.error ()) = []) ∧
     (∀ slug name, fetch_lever slug name (.error ()) = []) ∧
     (∀ slug name, fetch_workable slug name (.error ()) = []) ∧
     (∀ slug name, fetch_smartrecruiters slug name (.error ()) = []) ∧
     (∀ slug name, fetch_ashby slug name (.error ()) = []) ∧
     (∀ u name, fetch_workday u name (.error ()) = [])) ∧
    ((∀ slug name, fetch_greenhouse slug name (.ok (.num 3)) = []) ∧
     (∀ slug name, fetch_lever slug name (.ok (.num 3)) = []) ∧
     (∀ slug name, fetch_workable slug name (.ok (.num 3)) = []) ∧
     (∀ slug name, fetch_smartrecruiters slug name (.ok (.num 3)) = []) ∧
     (∀ slug name, fetch_ashby slug name (.ok (.num 3)) = []) ∧
     (∀ u name, fetch_workday u name (.ok (.num 3)) = [])) := by
  have hw : ∀ (u name : Str) (resp : Except Unit Json),
      (∀ host tenant site, workdayTarget u = some (host, tenant, site) →
        (match resp with
         | .error _ => ([] : List Posting)
         | .ok data =>
           match (do pyIter (pyOr (← pyGet data "jobPostings".toList (.arr []))
               (.arr [])) : Except PyErr (List Json)) with
           | .error _ => []
           | .ok js => runLoop (workdayStep host name tenant) js) = []) →
      fetch_workday u name resp = [] := by
    intro u name resp hcase
    unfold fetch_workday
    cases hu : workdayTarget u with
    | none => rfl
    | some x =>
      rcases x with ⟨host, tenant, site⟩
      exact hcase host tenant site hu
  refine ⟨⟨fun _ _ => rfl, fun _ _ => rfl, fun _ _ => rfl, fun _ _ => rfl, fun _ _ => rfl,
    fun u name => hw u name _ (fun _ _ _ _ => rfl)⟩,
    ⟨fun _ _ => rfl, fun _ _ => rfl, fun _ _ => rfl, fun _ _ => rfl, fun _ _ => rfl,
    fun u name => hw u name _ (fun _ _ _ _ => rfl)⟩⟩

/-- C2 counterexample: a Greenhouse response whose second entry is malformed
(an integer, on which `.get` raises) makes the adapter return the posting
accumulated from the first entry — a non-empty sequence — refuting the stated
"malformed at any point during processing resolves to an empty sequence". -/
theorem claim_C2_counterexample :
    (fetch_greenhouse "s".toList "n".toList
      (.ok (.obj [("jobs".toList, .arr [gGoodJob, .num 5])]))).length = 1 ∧
    greenhouseStep "s".toList "n".toList (.num 5) = .error .attributeError :=
  ⟨rfl, rfl⟩
